import Mathlib

/-!
Verification of the keyframe animation sampling and blending logic of
`examples/animation/gltf_skinned_mesh_using_animation_data.rs`.

The Rust source works over `f32` scalars (vectors from glam's `Vec3`,
quaternions from glam's `Quat`).  The embedding models the scalar
arithmetic exactly: rational numbers for all keyframe times, weights and
vector components, and real numbers for quaternion components (glam's
`Quat::lerp` renormalizes, which requires square roots).  Panicking paths
in the source (`todo!` for Step/CubicSpline interpolation and for morph
target weights, `panic!` for a target/sampler mismatch) are modelled by
`Option`, with `none` standing for a panic.
-/

namespace GltfAnim

/-- Three-component vector with rational components, modelling glam `Vec3`
(whose components are `f32`). -/
@[ext]
structure Vec3 where
  x : ℚ
  y : ℚ
  z : ℚ
deriving DecidableEq

instance : Zero Vec3 := ⟨⟨0, 0, 0⟩⟩

instance : Add Vec3 := ⟨fun a b => ⟨a.x + b.x, a.y + b.y, a.z + b.z⟩⟩

instance : Sub Vec3 := ⟨fun a b => ⟨a.x - b.x, a.y - b.y, a.z - b.z⟩⟩

instance : SMul ℚ Vec3 := ⟨fun c v => ⟨c * v.x, c * v.y, c * v.z⟩⟩

/-- Division of a vector by a scalar, componentwise, as in glam
(`Vec3 / f32`). -/
instance : HDiv Vec3 ℚ Vec3 := ⟨fun v c => ⟨v.x / c, v.y / c, v.z / c⟩⟩

instance : Inhabited Vec3 := ⟨0⟩

@[simp] theorem Vec3.zero_x : (0 : Vec3).x = 0 := rfl

@[simp] theorem Vec3.zero_y : (0 : Vec3).y = 0 := rfl

@[simp] theorem Vec3.zero_z : (0 : Vec3).z = 0 := rfl

@[simp] theorem Vec3.add_x (a b : Vec3) : (a + b).x = a.x + b.x := rfl

@[simp] theorem Vec3.add_y (a b : Vec3) : (a + b).y = a.y + b.y := rfl

@[simp] theorem Vec3.add_z (a b : Vec3) : (a + b).z = a.z + b.z := rfl

@[simp] theorem Vec3.sub_x (a b : Vec3) : (a - b).x = a.x - b.x := rfl

@[simp] theorem Vec3.sub_y (a b : Vec3) : (a - b).y = a.y - b.y := rfl

@[simp] theorem Vec3.sub_z (a b : Vec3) : (a - b).z = a.z - b.z := rfl

@[simp] theorem Vec3.smul_x (c : ℚ) (v : Vec3) : (c • v).x = c * v.x := rfl

@[simp] theorem Vec3.smul_y (c : ℚ) (v : Vec3) : (c • v).y = c * v.y := rfl

@[simp] theorem Vec3.smul_z (c : ℚ) (v : Vec3) : (c • v).z = c * v.z := rfl

@[simp] theorem Vec3.div_x (v : Vec3) (c : ℚ) : (v / c).x = v.x / c := rfl

@[simp] theorem Vec3.div_y (v : Vec3) (c : ℚ) : (v / c).y = v.y / c := rfl

@[simp] theorem Vec3.div_z (v : Vec3) (c : ℚ) : (v / c).z = v.z / c := rfl

instance : AddCommMonoid Vec3 where
  add_assoc a b c := by ext <;> simp <;> ring
  zero_add a := by ext <;> simp
  add_zero a := by ext <;> simp
  add_comm a b := by ext <;> simp <;> ring
  nsmul := nsmulRec

/-- Componentwise linear interpolation, glam's `Vec3::lerp`:
`self + ((other - self) * s)`. -/
def Vec3.lerp (a b : Vec3) (s : ℚ) : Vec3 := a + s • (b - a)

/-- The three interpolation modes of a glTF animation sampler
(`GltfAnimInterpolation` in the bevy glTF loader). -/
inductive GltfAnimInterpolation where
  | Linear
  | Step
  | CubicSpline
deriving DecidableEq

/-- Rightmost index `i` of `times` with `t > times[i]`, modelling
`times.iter().enumerate().rfind(|(_, kt)| t > **kt)` in the samplers.
`rfind` searches from the back, so it yields the largest such index. -/
def rfindIdx (t : ℚ) : List ℚ → Option ℕ
  | [] => none
  | kt :: rest =>
    match rfindIdx t rest with
    | some i => some (i + 1)
    | none => if t > kt then some 0 else none

/-- Keyframe index pair selection shared by `interpolate_vec3` and
`interpolate_quat`: the rightmost index with `times[i] < t` together with
its successor clamped to the last valid value index `n - 1` (`n` is the
length of the value list), or `(0, 0)` when every keyframe time is `≥ t`. -/
def findKeyframeIndices (t : ℚ) (times : List ℚ) (n : ℕ) : ℕ × ℕ :=
  match rfindIdx t times with
  | some i => (i, min (i + 1) (n - 1))
  | none => (0, 0)

/-- Model of `interpolate_vec3`.  The `Step` and `CubicSpline` arms are
`todo!()` in the source (a panic), modelled as `none`. -/
def interpolate_vec3 (vec3s : List Vec3) (times : List ℚ) (t : ℚ)
    (interp : GltfAnimInterpolation) : Option Vec3 :=
  let p := findKeyframeIndices t times vec3s.length
  if p.1 = p.2 then some (vec3s.getD p.1 default)
  else
    let t0 := times.getD p.1 0
    let t1 := times.getD p.2 0
    match interp with
    | GltfAnimInterpolation.Linear =>
        some (Vec3.lerp (vec3s.getD p.1 default) (vec3s.getD p.2 default) ((t - t0) / (t1 - t0)))
    | GltfAnimInterpolation.Step => none
    | GltfAnimInterpolation.CubicSpline => none

theorem rfindIdx_nil (t : ℚ) : rfindIdx t [] = none := rfl

/-- A hit of the rightmost search is in bounds and satisfies the predicate. -/
theorem rfindIdx_lt {t : ℚ} :
    ∀ {times : List ℚ} {i : ℕ}, rfindIdx t times = some i →
      i < times.length ∧ times.getD i 0 < t := by
  intro times
  induction times with
  | nil => intro i h; simp [rfindIdx] at h
  | cons kt rest ih =>
    intro i h
    rw [rfindIdx] at h
    cases hr : rfindIdx t rest with
    | some j =>
      rw [hr] at h
      cases h
      rcases ih hr with ⟨h1, h2⟩
      exact ⟨by simpa using Nat.succ_lt_succ h1, by simpa using h2⟩
    | none =>
      rw [hr] at h
      by_cases hgt : t > kt
      · simp only [hgt, if_pos] at h
        cases h
        simp [hgt]
      · simp [hgt] at h

/-- When the rightmost search misses, every keyframe time is `≥ t`. -/
theorem rfindIdx_none {t : ℚ} :
    ∀ {times : List ℚ}, rfindIdx t times = none →
      ∀ j, j < times.length → t ≤ times.getD j 0 := by
  intro times
  induction times with
  | nil => intro _ j hj; simp at hj
  | cons kt rest ih =>
    intro h j hj
    rw [rfindIdx] at h
    cases hr : rfindIdx t rest with
    | some k => rw [hr] at h; cases h
    | none =>
      rw [hr] at h
      by_cases hgt : t > kt
      · simp [hgt] at h
      · match j with
        | 0 => simpa using le_of_not_lt hgt
        | j + 1 => simpa using ih hr j (by simpa using hj)

/-- Maximality of the rightmost search: no later index satisfies the
predicate. -/
theorem rfindIdx_max {t : ℚ} :
    ∀ {times : List ℚ} {i : ℕ}, rfindIdx t times = some i →
      ∀ j, i < j → j < times.length → t ≤ times.getD j 0 := by
  intro times
  induction times with
  | nil => intro i h; simp [rfindIdx] at h
  | cons kt rest ih =>
    intro i h j hij hj
    rw [rfindIdx] at h
    cases hr : rfindIdx t rest with
    | some k =>
      rw [hr] at h
      cases h
      match j, hij with
      | j + 1, hij =>
        have : k < j := Nat.lt_of_succ_lt_succ hij
        simpa using ih hr j this (by simpa using hj)
    | none =>
      rw [hr] at h
      by_cases hgt : t > kt
      · simp only [hgt, if_pos] at h
        cases h
        match j, hij with
        | j + 1, _ =>
          have hjr : j < rest.length := by simpa using hj
          simpa using rfindIdx_none hr j hjr
      · simp [hgt] at h

/-- Converse of `rfindIdx_none`. -/
theorem rfindIdx_eq_none {t : ℚ} :
    ∀ {times : List ℚ}, (∀ j, j < times.length → t ≤ times.getD j 0) →
      rfindIdx t times = none := by
  intro times
  induction times with
  | nil => intro _; rfl
  | cons kt rest ih =>
    intro h
    rw [rfindIdx]
    have hr : rfindIdx t rest = none := by
      apply ih
      intro j hj
      simpa using h (j + 1) (by simpa using hj)
    rw [hr]
    have : t ≤ kt := by simpa using h 0 (by simp)
    simp [not_lt_of_le this]

/-- Converse of `rfindIdx_lt` and `rfindIdx_max`: an in-bounds index
satisfying the predicate maximally is the one found. -/
theorem rfindIdx_eq_some {t : ℚ} :
    ∀ {times : List ℚ} {i : ℕ}, i < times.length → times.getD i 0 < t →
      (∀ j, i < j → j < times.length → t ≤ times.getD j 0) →
      rfindIdx t times = some i := by
  intro times
  induction times with
  | nil => intro i hi; simp at hi
  | cons kt rest ih =>
    intro i hi hlt hmax
    rw [rfindIdx]
    match i with
    | 0 =>
      have hr : rfindIdx t rest = none := by
        apply rfindIdx_eq_none
        intro j hj
        simpa using hmax (j + 1) (Nat.succ_pos j) (by simpa using hj)
      rw [hr]
      simp only [List.getD_cons_zero] at hlt
      simp [hlt]
    | i + 1 =>
      have hr : rfindIdx t rest = some i := by
        apply ih (by simpa using hi) (by simpa using hlt)
        intro j hij hj
        simpa using hmax (j + 1) (Nat.succ_lt_succ hij) (by simpa using hj)
      rw [hr]

/-- Quaternion over the reals, built from glam `Quat`'s `xyzw` components
(`Quaternion.re` is glam's `w`). -/
def quatXYZW (x y z w : ℝ) : Quaternion ℝ := ⟨w, x, y, z⟩

/-- Four-dimensional dot product of quaternions, glam's `Quat::dot`. -/
def qdot (a b : Quaternion ℝ) : ℝ :=
  a.re * b.re + a.imI * b.imI + a.imJ * b.imJ + a.imK * b.imK

/-- Normalization to unit length, glam's `Quat::normalize`
(`self * self.length_recip()`). -/
noncomputable def qnormalize (q : Quaternion ℝ) : Quaternion ℝ :=
  (Real.sqrt (qdot q q))⁻¹ • q

/-- Model of glam's `Quat::lerp`: normalized linear interpolation with a
shortest-arc sign flip of the end quaternion (`bias`).  This is the
function the source calls for `Linear` rotation keyframes and for the
rotation blend; it is not spherical linear interpolation. -/
noncomputable def glamQuatLerp (start e : Quaternion ℝ) (s : ℝ) : Quaternion ℝ :=
  let d := qdot start e
  let bias : ℝ := if 0 ≤ d then 1 else -1
  qnormalize (start + s • (bias • e - start))

/-- Model of `interpolate_quat`.  Identical keyframe-pair selection to
`interpolate_vec3`; the `Linear` arm calls glam's `Quat::lerp`, and the
`Step`/`CubicSpline` arms are `todo!()` (a panic, modelled as `none`). -/
noncomputable def interpolate_quat (quats : List (Quaternion ℝ)) (times : List ℚ) (t : ℚ)
    (interp : GltfAnimInterpolation) : Option (Quaternion ℝ) :=
  let p := findKeyframeIndices t times quats.length
  if p.1 = p.2 then some (quats.getD p.1 1)
  else
    let t0 := times.getD p.1 0
    let t1 := times.getD p.2 0
    match interp with
    | GltfAnimInterpolation.Linear =>
        some (glamQuatLerp (quats.getD p.1 1) (quats.getD p.2 1) (((t - t0) / (t1 - t0) : ℚ) : ℝ))
    | GltfAnimInterpolation.Step => none
    | GltfAnimInterpolation.CubicSpline => none

/-- The output value lists of a glTF animation sampler
(`GltfAnimOutputValues`). -/
inductive GltfAnimOutputValues where
  | Translations : List Vec3 → GltfAnimOutputValues
  | Rotations : List (Quaternion ℝ) → GltfAnimOutputValues
  | Scales : List Vec3 → GltfAnimOutputValues
  | MorphTargetWeights : List ℚ → GltfAnimOutputValues

/-- A glTF animation sampler (`GltfAnimSampler`): keyframe times
(`input`), keyframe values (`output`) and an interpolation mode. -/
structure GltfAnimSampler where
  input : List ℚ
  output : GltfAnimOutputValues
  interpolation : GltfAnimInterpolation

/-- The animated property a channel targets (`GltfAnimTargetProperty`). -/
inductive GltfAnimTargetProperty where
  | Position
  | Rotation
  | Scale
  | MorphTargetWeights
deriving DecidableEq

/-- A channel target (the `path` field is what the accumulation loop
matches on). -/
structure GltfAnimTarget where
  path : GltfAnimTargetProperty

/-- One animation channel: a target plus a sampler. -/
structure GltfAnimChannel where
  target : GltfAnimTarget
  sampler : GltfAnimSampler

/-- One evaluated animation property value (`GltfAnimOutputSample`). -/
inductive GltfAnimOutputSample where
  | Position : Vec3 → GltfAnimOutputSample
  | Rotation : Quaternion ℝ → GltfAnimOutputSample
  | Scale : Vec3 → GltfAnimOutputSample
  | MorphTargetWeights : ℚ → GltfAnimOutputSample

/-- Model of `sample_animation_value`.  Morph target weights are not
interpolated; the source returns `MorphTargetWeights(0.)` for them.  A
`none` result models a panic inside the called interpolator. -/
noncomputable def sample_animation_value (sampler : GltfAnimSampler) (time : ℚ) :
    Option GltfAnimOutputSample :=
  let times := sampler.input
  let interp := sampler.interpolation
  match sampler.output with
  | GltfAnimOutputValues.Translations vs =>
      (interpolate_vec3 vs times time interp).map GltfAnimOutputSample.Position
  | GltfAnimOutputValues.Rotations qs =>
      (interpolate_quat qs times time interp).map GltfAnimOutputSample.Rotation
  | GltfAnimOutputValues.Scales vs =>
      (interpolate_vec3 vs times time interp).map GltfAnimOutputSample.Scale
  | GltfAnimOutputValues.MorphTargetWeights _ =>
      some (GltfAnimOutputSample.MorphTargetWeights 0)

/-- A node transform (the fields of bevy's `Transform` that the update
writes). -/
structure Transform where
  translation : Vec3
  rotation : Quaternion ℝ
  scale : Vec3

/-- The weighted-sample accumulation loop of `update_gltf_animations`
(lines 202-226): one entry of `node_animations` is a channel together
with its controller time and blend weight.  Channels with weight exactly
`0` are skipped before sampling.  The morph-target arm is `todo!()` and
the target/sampler mismatch arm is `panic!`, both modelled as `none`. -/
noncomputable def accumulate :
    List (GltfAnimChannel × ℚ × ℚ) →
      Option (List (Vec3 × ℚ) × List (Quaternion ℝ × ℚ) × List (Vec3 × ℚ))
  | [] => some ([], [], [])
  | (channel, input_time, input_weight) :: rest =>
    if input_weight = 0 then accumulate rest
    else
      match sample_animation_value channel.sampler input_time with
      | none => none
      | some output_sample =>
        match channel.target.path, output_sample with
        | GltfAnimTargetProperty.Position, GltfAnimOutputSample.Position pos =>
            (accumulate rest).map fun acc => ((pos, input_weight) :: acc.1, acc.2.1, acc.2.2)
        | GltfAnimTargetProperty.Rotation, GltfAnimOutputSample.Rotation rot =>
            (accumulate rest).map fun acc => (acc.1, (rot, input_weight) :: acc.2.1, acc.2.2)
        | GltfAnimTargetProperty.Scale, GltfAnimOutputSample.Scale sc =>
            (accumulate rest).map fun acc => (acc.1, acc.2.1, (sc, input_weight) :: acc.2.2)
        | _, _ => none

/-- The translation blend of `update_gltf_animations` (lines 229-240):
fold the accumulated `(position, weight)` pairs into a weighted sum and a
weight sum, then divide. -/
def blendTranslation (accum_pos : List (Vec3 × ℚ)) : Option Vec3 :=
  if 0 < accum_pos.length then
    let s := accum_pos.foldl (fun acc p => (acc.1 + p.2 • p.1, acc.2 + p.2)) ((0 : Vec3), (0 : ℚ))
    some (s.1 / s.2)
  else none

/-- The rotation blend of `update_gltf_animations` (lines 241-249): fold
the accumulated `(rotation, weight)` pairs left-to-right from the
identity, each step computing `Quat::lerp(IDENTITY, rot, w) * acc`. -/
noncomputable def blendRotation (accum_rot : List (Quaternion ℝ × ℚ)) :
    Option (Quaternion ℝ) :=
  if 0 < accum_rot.length then
    some (accum_rot.foldl (fun acc p => glamQuatLerp 1 p.1 ((p.2 : ℚ) : ℝ) * acc) 1)
  else none

/-- The scale blend of `update_gltf_animations` (lines 250-261): same
shape as the translation blend. -/
def blendScale (accum_scale : List (Vec3 × ℚ)) : Option Vec3 :=
  if 0 < accum_scale.length then
    let s := accum_scale.foldl (fun acc p => (acc.1 + p.2 • p.1, acc.2 + p.2)) ((0 : Vec3), (0 : ℚ))
    some (s.1 / s.2)
  else none

/-- Per-target body of `update_gltf_animations` (lines 163-272): sample
and accumulate all bound channels, blend each property kind, and write
each blended property over the node's transform, leaving properties with
no blended value untouched.  `none` models a panic of the loop. -/
noncomputable def update_gltf_animations_target (chans : List (GltfAnimChannel × ℚ × ℚ))
    (xfm : Transform) : Option Transform :=
  match accumulate chans with
  | none => none
  | some acc =>
    let translation := blendTranslation acc.1
    let rotation := blendRotation acc.2.1
    let scale := blendScale acc.2.2
    some { translation := translation.getD xfm.translation
           rotation := rotation.getD xfm.rotation
           scale := scale.getD xfm.scale }

/-- Runtime controller state (`GltfAnimationController`), one entry per
animation of the asset. -/
structure GltfAnimationController where
  times : List ℚ
  weights : List ℚ
  start_times : List ℚ
  durations : List ℚ

/-- Truncation toward zero, the rounding used by Rust's `%` on floats. -/
def ratTrunc (q : ℚ) : ℤ := if 0 ≤ q then ⌊q⌋ else ⌈q⌉

/-- Rust's `%` on `f32` (`a - b * (a / b).trunc()`), in exact arithmetic. -/
def rustRem (a b : ℚ) : ℚ := a - b * (ratTrunc (a / b) : ℚ)

/-- Per-controller body of `update_animation_controllers` (lines 108-121):
every animation time is recomputed as `start_time + (elapsed % duration)`,
then all weights are zeroed and the first weight is set to one. -/
def update_animation_controllers (ctrl : GltfAnimationController) (time_secs : ℚ) :
    GltfAnimationController :=
  { ctrl with
    times := (List.range ctrl.times.length).map fun i =>
      ctrl.start_times.getD i 0 + rustRem time_secs (ctrl.durations.getD i 0)
    weights := (List.replicate ctrl.weights.length 0).set 0 1 }

/-- Shortest-arc spherical linear interpolation between two unit
quaternions, as the specification describes rotation interpolation and
blending.  This is the spec's comparison point, not code from the
repository: when the quaternions are not parallel, the result is
`(sin((1-t)θ)/sin θ) a + (sin(tθ)/sin θ) b'`, with `b'` the sign-flipped
`b` on the same hemisphere as `a` and `θ` the angle between `a` and `b'`. -/
noncomputable def slerpSpec (a b : Quaternion ℝ) (t : ℝ) : Quaternion ℝ :=
  let d := qdot a b
  let b' := if d < 0 then -b else b
  let d' := if d < 0 then -d else d
  let theta := Real.arccos d'
  if Real.sin theta = 0 then a
  else (Real.sin ((1 - t) * theta) / Real.sin theta) • a +
    (Real.sin (t * theta) / Real.sin theta) • b'

/-- When no keyframe time is below the query time both indices collapse
to `0` and the first value is returned, whatever the mode. -/
theorem interpolate_vec3_of_rfind_none (vs : List Vec3) {times : List ℚ} {t : ℚ}
    (h : rfindIdx t times = none) (interp : GltfAnimInterpolation) :
    interpolate_vec3 vs times t interp = some (vs.getD 0 default) := by
  unfold interpolate_vec3 findKeyframeIndices
  rw [h]
  simp

/-- When the found index is the last value index, the clamp makes both
indices coincide and that value is returned, whatever the mode. -/
theorem interpolate_vec3_of_rfind_last (vs : List Vec3) {times : List ℚ} {t : ℚ}
    (h : rfindIdx t times = some (vs.length - 1)) (interp : GltfAnimInterpolation) :
    interpolate_vec3 vs times t interp = some (vs.getD (vs.length - 1) default) := by
  unfold interpolate_vec3 findKeyframeIndices
  rw [h]
  simp

/-- When the found index has a successor within the value list, `Linear`
mode interpolates between the two values. -/
theorem interpolate_vec3_of_rfind_mid (vs : List Vec3) {times : List ℚ} {t : ℚ} {i : ℕ}
    (h : rfindIdx t times = some i) (hi : i + 1 < vs.length) :
    interpolate_vec3 vs times t GltfAnimInterpolation.Linear =
      some (Vec3.lerp (vs.getD i default) (vs.getD (i + 1) default)
        ((t - times.getD i 0) / (times.getD (i + 1) 0 - times.getD i 0))) := by
  unfold interpolate_vec3 findKeyframeIndices
  rw [h]
  have hmin : min (i + 1) (vs.length - 1) = i + 1 := by omega
  simp [hmin]

/-- When the found index has a successor within the value list, `Step`
and `CubicSpline` modes hit `todo!()` (modelled as `none`). -/
theorem interpolate_vec3_of_rfind_mid_unimpl (vs : List Vec3) {times : List ℚ} {t : ℚ}
    {i : ℕ} (h : rfindIdx t times = some i) (hi : i + 1 < vs.length)
    (interp : GltfAnimInterpolation) (hni : interp ≠ GltfAnimInterpolation.Linear) :
    interpolate_vec3 vs times t interp = none := by
  unfold interpolate_vec3 findKeyframeIndices
  rw [h]
  have hmin : min (i + 1) (vs.length - 1) = i + 1 := by omega
  cases interp with
  | Linear => exact absurd rfl hni
  | Step => simp [hmin]
  | CubicSpline => simp [hmin]

/-- Quaternion version of `interpolate_vec3_of_rfind_none`. -/
theorem interpolate_quat_of_rfind_none (qs : List (Quaternion ℝ)) {times : List ℚ} {t : ℚ}
    (h : rfindIdx t times = none) (interp : GltfAnimInterpolation) :
    interpolate_quat qs times t interp = some (qs.getD 0 1) := by
  unfold interpolate_quat findKeyframeIndices
  rw [h]
  simp

/-- Quaternion version of `interpolate_vec3_of_rfind_last`. -/
theorem interpolate_quat_of_rfind_last (qs : List (Quaternion ℝ)) {times : List ℚ} {t : ℚ}
    (h : rfindIdx t times = some (qs.length - 1)) (interp : GltfAnimInterpolation) :
    interpolate_quat qs times t interp = some (qs.getD (qs.length - 1) 1) := by
  unfold interpolate_quat findKeyframeIndices
  rw [h]
  simp

/-- Quaternion version of `interpolate_vec3_of_rfind_mid`: `Linear` mode
calls glam's `Quat::lerp` on the two keyframe quaternions. -/
theorem interpolate_quat_of_rfind_mid (qs : List (Quaternion ℝ)) {times : List ℚ} {t : ℚ}
    {i : ℕ} (h : rfindIdx t times = some i) (hi : i + 1 < qs.length) :
    interpolate_quat qs times t GltfAnimInterpolation.Linear =
      some (glamQuatLerp (qs.getD i 1) (qs.getD (i + 1) 1)
        (((t - times.getD i 0) / (times.getD (i + 1) 0 - times.getD i 0) : ℚ) : ℝ)) := by
  unfold interpolate_quat findKeyframeIndices
  rw [h]
  have hmin : min (i + 1) (qs.length - 1) = i + 1 := by omega
  simp [hmin]

/-- Componentwise form of glam's vector lerp. -/
theorem Vec3.lerp_eq (a b : Vec3) (s : ℚ) :
    Vec3.lerp a b s =
      ⟨a.x + s * (b.x - a.x), a.y + s * (b.y - a.y), a.z + s * (b.z - a.z)⟩ := rfl

/-- Lerp at parameter `1` reaches the second endpoint exactly. -/
theorem Vec3.lerp_one (a b : Vec3) : Vec3.lerp a b 1 = b := by
  ext <;> simp [Vec3.lerp_eq]

/-- Lerp at parameter `1/2` is the componentwise average. -/
theorem Vec3.lerp_half (a b : Vec3) : Vec3.lerp a b (1 / 2) = (a + b) / (2 : ℚ) := by
  ext <;> simp [Vec3.lerp_eq] <;> ring

/-- C1: in `Linear` mode with the rightmost index `i0` satisfying
`times[i0] < t` and `i0 + 1` a valid value index, the sampler returns the
componentwise linear interpolation
`lerp(values[i0], values[i1], (t - times[i0]) / (times[i1] - times[i0]))`;
in particular a query exactly at the interior keyframe time `times[i0+1]`
returns that keyframe's value, and a query at the midpoint of the two
keyframe times returns the componentwise average of the two values. -/
theorem claim_C1_linear_vec3 (vs : List Vec3) (times : List ℚ) (t : ℚ) (i0 : ℕ)
    (hfind : rfindIdx t times = some i0) (hi : i0 + 1 < vs.length) :
    (interpolate_vec3 vs times t GltfAnimInterpolation.Linear =
      some ⟨(vs.getD i0 default).x +
              ((t - times.getD i0 0) / (times.getD (i0 + 1) 0 - times.getD i0 0)) *
                ((vs.getD (i0 + 1) default).x - (vs.getD i0 default).x),
            (vs.getD i0 default).y +
              ((t - times.getD i0 0) / (times.getD (i0 + 1) 0 - times.getD i0 0)) *
                ((vs.getD (i0 + 1) default).y - (vs.getD i0 default).y),
            (vs.getD i0 default).z +
              ((t - times.getD i0 0) / (times.getD (i0 + 1) 0 - times.getD i0 0)) *
                ((vs.getD (i0 + 1) default).z - (vs.getD i0 default).z)⟩) ∧
    (t = times.getD (i0 + 1) 0 →
      interpolate_vec3 vs times t GltfAnimInterpolation.Linear =
        some (vs.getD (i0 + 1) default)) ∧
    (t = (times.getD i0 0 + times.getD (i0 + 1) 0) / 2 →
      interpolate_vec3 vs times t GltfAnimInterpolation.Linear =
        some ((vs.getD i0 default + vs.getD (i0 + 1) default) / (2 : ℚ))) := by
  have h0 : times.getD i0 0 < t := (rfindIdx_lt hfind).2
  refine ⟨?_, ?_, ?_⟩
  · rw [interpolate_vec3_of_rfind_mid vs hfind hi, Vec3.lerp_eq]
  · intro heq
    rw [interpolate_vec3_of_rfind_mid vs hfind hi]
    have hne : times.getD (i0 + 1) 0 - times.getD i0 0 ≠ 0 := by
      rw [← heq]
      exact sub_ne_zero.mpr (ne_of_gt h0)
    have hs : (t - times.getD i0 0) / (times.getD (i0 + 1) 0 - times.getD i0 0) = 1 := by
      rw [heq]
      exact div_self hne
    rw [hs, Vec3.lerp_one]
  · intro heq
    rw [interpolate_vec3_of_rfind_mid vs hfind hi]
    have hlt : times.getD i0 0 < times.getD (i0 + 1) 0 := by
      rw [heq] at h0
      linarith
    have hne : times.getD (i0 + 1) 0 - times.getD i0 0 ≠ 0 :=
      sub_ne_zero.mpr (ne_of_gt hlt)
    have hs : (t - times.getD i0 0) / (times.getD (i0 + 1) 0 - times.getD i0 0) = 1 / 2 := by
      rw [heq, div_eq_iff hne]
      ring
    rw [hs, Vec3.lerp_half]

/-- Witness for C1 at the concrete track `times = [0, 2]`,
`values = [(0,0,0), (2,4,6)]`, query time `1` (the midpoint). -/
theorem claim_C1_linear_vec3_witness :
    interpolate_vec3 [⟨0, 0, 0⟩, ⟨2, 4, 6⟩] [0, 2] 1 GltfAnimInterpolation.Linear =
      some ⟨1, 2, 3⟩ ∧
    interpolate_vec3 [⟨0, 0, 0⟩, ⟨2, 4, 6⟩] [0, 2] 1 GltfAnimInterpolation.Linear =
      some ((⟨0, 0, 0⟩ + ⟨2, 4, 6⟩ : Vec3) / (2 : ℚ)) := by
  have h := claim_C1_linear_vec3 [⟨0, 0, 0⟩, ⟨2, 4, 6⟩] [0, 2] 1 0
    (by norm_num [rfindIdx]) (by norm_num)
  refine ⟨h.1.trans ?_, h.2.2 (by norm_num)⟩
  norm_num

/-- C10: whenever the two selected indices are distinct, the query time
lies strictly above the first selected keyframe time and at most the
second, so the interpolation denominator is strictly positive — no sort
assumption on `times` is needed, only that the value count `n` matches
the time count. -/
theorem claim_C10_selection_sound (times : List ℚ) (n : ℕ) (t : ℚ) (hn : times.length = n)
    (i0 i1 : ℕ) (hsel : findKeyframeIndices t times n = (i0, i1)) (hne : i0 ≠ i1) :
    times.getD i0 0 < t ∧ t ≤ times.getD i1 0 ∧ 0 < times.getD i1 0 - times.getD i0 0 := by
  unfold findKeyframeIndices at hsel
  cases hr : rfindIdx t times with
  | none =>
    rw [hr] at hsel
    cases hsel
    exact absurd rfl hne
  | some i =>
    rw [hr] at hsel
    injection hsel with h1 h2
    subst h1
    subst h2
    rcases rfindIdx_lt hr with ⟨hilen, hlt⟩
    have hmin : min (i + 1) (n - 1) = i + 1 := by omega
    rw [hmin]
    rw [hmin] at hne
    have hsucc : i + 1 < times.length := by omega
    have hmax := rfindIdx_max hr (i + 1) (Nat.lt_succ_self i) hsucc
    exact ⟨hlt, hmax, by linarith⟩

/-- Witness for C10 at the concrete track `times = [0, 2]`, two values,
query time `1`. -/
theorem claim_C10_selection_sound_witness :
    ([0, 2] : List ℚ).getD 0 0 < 1 ∧ (1 : ℚ) ≤ ([0, 2] : List ℚ).getD 1 0 ∧
      (0 : ℚ) < ([0, 2] : List ℚ).getD 1 0 - ([0, 2] : List ℚ).getD 0 0 :=
  claim_C10_selection_sound [0, 2] 2 1 rfl 0 1
    (by norm_num [findKeyframeIndices, rfindIdx]) (by norm_num)

/-- In a `≤`-sorted list the head is a lower bound (in `getD` form). -/
theorem sorted_head_le {times : List ℚ} (hs : List.Sorted (fun a b => a ≤ b) times) :
    ∀ j, j < times.length → times.getD 0 0 ≤ times.getD j 0 := by
  cases times with
  | nil => intro j hj; simp at hj
  | cons kt rest =>
    intro j hj
    match j with
    | 0 => simp
    | j + 1 =>
      have hj' : j < rest.length := by simpa using hj
      have hmem : rest.getD j 0 ∈ rest := by
        rw [List.getD_eq_getElem rest 0 hj']
        exact List.getElem_mem hj'
      simpa using List.rel_of_sorted_cons hs _ hmem

/-- In a `<`-sorted list, `getD` is strictly monotone on valid indices. -/
theorem sorted_lt_getD {times : List ℚ} (hs : List.Sorted (fun a b => a < b) times) :
    ∀ i j, i < j → j < times.length → times.getD i 0 < times.getD j 0 := by
  induction times with
  | nil => intro i j _ hj; simp at hj
  | cons kt rest ih =>
    intro i j hij hj
    match i, j with
    | 0, j + 1 =>
      have hj' : j < rest.length := by simpa using hj
      have hmem : rest.getD j 0 ∈ rest := by
        rw [List.getD_eq_getElem rest 0 hj']
        exact List.getElem_mem hj'
      simpa using List.rel_of_sorted_cons hs _ hmem
    | i + 1, j + 1 =>
      have := ih hs.of_cons i j (by omega) (by simpa using hj)
      simpa using this

/-- glam's `Quat::lerp` at parameter `1` returns the end quaternion
exactly when the endpoints are on the same hemisphere and the end
quaternion has unit length. -/
theorem glamQuatLerp_at_one (a b : Quaternion ℝ) (hd : 0 ≤ qdot a b) (hb : qdot b b = 1) :
    glamQuatLerp a b 1 = b := by
  simp only [glamQuatLerp]
  rw [if_pos hd]
  have h1 : a + (1 : ℝ) • ((1 : ℝ) • b - a) = b := by
    rw [one_smul, one_smul]
    abel
  rw [h1]
  unfold qnormalize
  rw [hb, Real.sqrt_one, inv_one, one_smul]

/-- C2 (amended): flat extrapolation.  For a track with as many values as
(sorted) keyframe times: a query at or before the first keyframe time
returns the first value unmodified in every interpolation mode, for both
vector and quaternion tracks; a query strictly after the last keyframe
time returns the last value unmodified in every mode; a query exactly at
the last keyframe time of a strictly sorted track with at least two
keyframes goes through the interpolation branch, so it returns the last
value only in `Linear` mode (computed as lerp at parameter `1`; for the
quaternion track this lands on the last keyframe exactly when that
quaternion is unit length and on the same hemisphere as its predecessor),
while `Step` and `CubicSpline` panic there. -/
theorem claim_C2_flat_extrapolation (vs : List Vec3) (qs : List (Quaternion ℝ))
    (times : List ℚ) (t : ℚ) (interp : GltfAnimInterpolation)
    (hne : times ≠ []) (hlenv : times.length = vs.length) (hlenq : times.length = qs.length) :
    (List.Sorted (fun a b => a ≤ b) times → t ≤ times.getD 0 0 →
      interpolate_vec3 vs times t interp = some (vs.getD 0 default) ∧
      interpolate_quat qs times t interp = some (qs.getD 0 1)) ∧
    (times.getD (times.length - 1) 0 < t →
      interpolate_vec3 vs times t interp = some (vs.getD (vs.length - 1) default) ∧
      interpolate_quat qs times t interp = some (qs.getD (qs.length - 1) 1)) ∧
    (List.Sorted (fun a b => a < b) times → 2 ≤ times.length →
      t = times.getD (times.length - 1) 0 →
      interpolate_vec3 vs times t GltfAnimInterpolation.Linear =
        some (vs.getD (vs.length - 1) default) ∧
      (0 ≤ qdot (qs.getD (qs.length - 2) 1) (qs.getD (qs.length - 1) 1) →
        qdot (qs.getD (qs.length - 1) 1) (qs.getD (qs.length - 1) 1) = 1 →
        interpolate_quat qs times t GltfAnimInterpolation.Linear =
          some (qs.getD (qs.length - 1) 1))) := by
  have hlen0 : 0 < times.length := List.length_pos.mpr hne
  refine ⟨?_, ?_, ?_⟩
  · intro hsort hle
    have hnone : rfindIdx t times = none := by
      apply rfindIdx_eq_none
      intro j hj
      exact le_trans hle (sorted_head_le hsort j hj)
    exact ⟨interpolate_vec3_of_rfind_none vs hnone interp,
      interpolate_quat_of_rfind_none qs hnone interp⟩
  · intro hlast
    have hsome : rfindIdx t times = some (times.length - 1) := by
      apply rfindIdx_eq_some (by omega) hlast
      intro j h1 h2
      omega
    constructor
    · have h := interpolate_vec3_of_rfind_last vs (by rw [hsome, hlenv]) interp
      exact h
    · have h := interpolate_quat_of_rfind_last qs (by rw [hsome, hlenq]) interp
      exact h
  · intro hssort h2 heq
    have hsome : rfindIdx t times = some (times.length - 2) := by
      apply rfindIdx_eq_some (by omega)
      · rw [heq]
        exact sorted_lt_getD hssort _ _ (by omega) (by omega)
      · intro j h1 hj
        have : j = times.length - 1 := by omega
        subst this
        rw [heq]
    have hlt2 : times.getD (times.length - 2) 0 < times.getD (times.length - 1) 0 :=
      sorted_lt_getD hssort _ _ (by omega) (by omega)
    have e1 : times.length - 2 + 1 = times.length - 1 := by omega
    constructor
    · have h := interpolate_vec3_of_rfind_mid vs hsome (by omega)
      rw [e1] at h
      have hs1 : (t - times.getD (times.length - 2) 0) /
          (times.getD (times.length - 1) 0 - times.getD (times.length - 2) 0) = 1 := by
        rw [heq]
        exact div_self (sub_ne_zero.mpr (ne_of_gt hlt2))
      rw [hs1, Vec3.lerp_one] at h
      rw [h, hlenv]
    · intro hhemi hunit
      have h := interpolate_quat_of_rfind_mid qs hsome (by omega)
      rw [e1] at h
      have hs1 : (t - times.getD (times.length - 2) 0) /
          (times.getD (times.length - 1) 0 - times.getD (times.length - 2) 0) = 1 := by
        rw [heq]
        exact div_self (sub_ne_zero.mpr (ne_of_gt hlt2))
      rw [hs1] at h
      rw [hlenq] at h
      rw [Rat.cast_one, glamQuatLerp_at_one _ _ hhemi hunit] at h
      exact h

/-- Counterexample to C2 as stated: at a query time exactly equal to the
last keyframe time the interpolation branch is taken, and in `Step` mode
the source hits `todo!()` (a panic, `none` in the model) instead of
returning the last keyframe's value. -/
theorem claim_C2_counterexample :
    interpolate_vec3 [⟨0, 0, 0⟩, ⟨5, 5, 5⟩] [0, 1] 1 GltfAnimInterpolation.Step ≠
      some (⟨5, 5, 5⟩ : Vec3) := by
  have hf : rfindIdx 1 [0, 1] = some 0 := by norm_num [rfindIdx]
  have h := interpolate_vec3_of_rfind_mid_unimpl [⟨0, 0, 0⟩, ⟨5, 5, 5⟩] hf (by norm_num)
    GltfAnimInterpolation.Step (by decide)
  rw [h]
  simp

/-- Witness for C2 (amended) at a query time strictly past the last
keyframe, where flat extrapolation holds even in `Step` mode. -/
theorem claim_C2_flat_extrapolation_witness :
    interpolate_vec3 [⟨1, 1, 1⟩, ⟨2, 2, 2⟩] [0, 2] 3 GltfAnimInterpolation.Step =
      some (⟨2, 2, 2⟩ : Vec3) ∧
    interpolate_quat [1, 1] [0, 2] 3 GltfAnimInterpolation.Step = some 1 := by
  have h := claim_C2_flat_extrapolation [⟨1, 1, 1⟩, ⟨2, 2, 2⟩] [1, 1] [0, 2] 3
    GltfAnimInterpolation.Step (by simp) rfl rfl
  have h2 := h.2.1 (by norm_num)
  exact ⟨h2.1, h2.2⟩

/-- Evaluation of a `getD` access into a mapped range, the shape produced
by the controller-update loop. -/
theorem getD_map_range {n i : ℕ} (f : ℕ → ℚ) (hi : i < n) :
    ((List.range n).map f).getD i 0 = f i := by
  rw [List.getD_eq_getElem _ _ (by simpa using hi)]
  simp

/-- C6: the controller update sets every clip's current playback time to
`start_time + (elapsed mod duration)` — in particular every active clip's
time — so clips loop unconditionally; with duration `2`, start time `0`
and elapsed time `5/2` the current time becomes `1/2`. -/
theorem claim_C6_controller_loop (ctrl : GltfAnimationController) (time_secs : ℚ) (i : ℕ)
    (hi : i < ctrl.times.length) (_hdur : ctrl.durations.getD i 0 ≠ 0) :
    (update_animation_controllers ctrl time_secs).times.getD i 0 =
      ctrl.start_times.getD i 0 + rustRem time_secs (ctrl.durations.getD i 0) ∧
    (update_animation_controllers ⟨[0], [1], [0], [2]⟩ (5 / 2)).times.getD 0 0 = 1 / 2 := by
  constructor
  · unfold update_animation_controllers
    exact getD_map_range _ hi
  · norm_num [update_animation_controllers, rustRem, ratTrunc]

/-- Witness for C6: one clip with duration `2`, start time `0`, elapsed
time `5/2` — the looped time is `1/2`. -/
theorem claim_C6_controller_loop_witness :
    (update_animation_controllers ⟨[0], [1], [0], [2]⟩ (5 / 2)).times.getD 0 0 =
      ([0] : List ℚ).getD 0 0 + rustRem (5 / 2) (([2] : List ℚ).getD 0 0) ∧
    (update_animation_controllers ⟨[0], [1], [0], [2]⟩ (5 / 2)).times.getD 0 0 = 1 / 2 :=
  claim_C6_controller_loop ⟨[0], [1], [0], [2]⟩ (5 / 2) 0 (by simp) (by norm_num)

/-- The blend fold accumulates exactly the weighted sum of the values and
the sum of the weights. -/
theorem foldl_weighted_sum (l : List (Vec3 × ℚ)) (v : Vec3) (w : ℚ) :
    l.foldl (fun acc p => (acc.1 + p.2 • p.1, acc.2 + p.2)) (v, w) =
      (v + (l.map fun p => p.2 • p.1).sum, w + (l.map Prod.snd).sum) := by
  induction l generalizing v w with
  | nil => simp
  | cons p rest ih =>
    simp only [List.foldl_cons, List.map_cons, List.sum_cons]
    rw [ih]
    refine congrArg₂ Prod.mk ?_ ?_
    · rw [add_assoc]
    · ring

/-- Closed form of the translation blend on a nonempty accumulator. -/
theorem blendTranslation_eq (accum : List (Vec3 × ℚ)) (h : accum ≠ []) :
    blendTranslation accum =
      some ((accum.map fun p => p.2 • p.1).sum / (accum.map Prod.snd).sum) := by
  unfold blendTranslation
  rw [if_pos (List.length_pos.mpr h), foldl_weighted_sum]
  simp

/-- Closed form of the scale blend on a nonempty accumulator. -/
theorem blendScale_eq (accum : List (Vec3 × ℚ)) (h : accum ≠ []) :
    blendScale accum =
      some ((accum.map fun p => p.2 • p.1).sum / (accum.map Prod.snd).sum) := by
  unfold blendScale
  rw [if_pos (List.length_pos.mpr h), foldl_weighted_sum]
  simp

/-- Accumulation ignores channels whose blend weight is exactly zero:
they are filtered out before any sampling happens. -/
theorem accumulate_filter (chans : List (GltfAnimChannel × ℚ × ℚ)) :
    accumulate chans = accumulate (chans.filter fun c => c.2.2 ≠ 0) := by
  induction chans with
  | nil => rfl
  | cons c rest ih =>
    obtain ⟨channel, input_time, input_weight⟩ := c
    by_cases hw : input_weight = 0
    · subst hw
      rw [List.filter_cons]
      simp only [accumulate, if_pos rfl]
      simpa using ih
    · have e2 : ((channel, input_time, input_weight) :: rest).filter (fun c => c.2.2 ≠ 0) =
          (channel, input_time, input_weight) :: rest.filter (fun c => c.2.2 ≠ 0) := by
        simp [List.filter_cons, hw]
      rw [e2]
      simp only [accumulate, if_neg hw]
      cases hs : sample_animation_value channel.sampler input_time with
      | none => rfl
      | some s =>
        cases hp : channel.target.path <;> cases s <;> simp [ih]

/-- The per-target update in terms of the three blends, once accumulation
succeeded. -/
theorem update_target_eq (chans : List (GltfAnimChannel × ℚ × ℚ)) (xfm : Transform)
    (ps : List (Vec3 × ℚ)) (rs : List (Quaternion ℝ × ℚ)) (ss : List (Vec3 × ℚ))
    (hacc : accumulate chans = some (ps, rs, ss)) :
    update_gltf_animations_target chans xfm =
      some { translation := (blendTranslation ps).getD xfm.translation
             rotation := (blendRotation rs).getD xfm.rotation
             scale := (blendScale ss).getD xfm.scale } := by
  unfold update_gltf_animations_target
  rw [hacc]

/-- C7: channels with weight exactly `0` are skipped before sampling and
contribute nothing — the per-node update is unchanged when all
zero-weight channels are removed from the input, whatever their track
data; in particular a node bound to channels of weight `1` and `0`
produces exactly the output of the weight-`1` channel alone. -/
theorem claim_C7_zero_weight_skipped (chans : List (GltfAnimChannel × ℚ × ℚ))
    (xfm : Transform) :
    update_gltf_animations_target chans xfm =
      update_gltf_animations_target (chans.filter fun c => c.2.2 ≠ 0) xfm ∧
    (∀ (c1 c2 : GltfAnimChannel) (t1 t2 : ℚ),
      update_gltf_animations_target [(c1, t1, 1), (c2, t2, 0)] xfm =
        update_gltf_animations_target [(c1, t1, 1)] xfm) := by
  constructor
  · unfold update_gltf_animations_target
    rw [accumulate_filter]
  · intro c1 c2 t1 t2
    unfold update_gltf_animations_target
    rw [accumulate_filter [(c1, t1, 1), (c2, t2, 0)]]
    have e : ([(c1, t1, (1 : ℚ)), (c2, t2, 0)].filter fun c => c.2.2 ≠ 0) = [(c1, t1, 1)] := by
      simp
    rw [e]

/-- C4: for a node whose accumulation produced at least one contributing
position pair, the written translation is the weighted arithmetic mean
`sum(value_i * weight_i) / sum(weight_i)` of the accumulated samples, and
likewise for scale; with weights `1/4` and `3/4` on values `A` and `B`
the translation blend is exactly `1/4 A + 3/4 B`. -/
theorem claim_C4_weighted_mean (chans : List (GltfAnimChannel × ℚ × ℚ)) (xfm : Transform)
    (ps : List (Vec3 × ℚ)) (rs : List (Quaternion ℝ × ℚ)) (ss : List (Vec3 × ℚ))
    (hacc : accumulate chans = some (ps, rs, ss)) :
    (ps ≠ [] →
      (update_gltf_animations_target chans xfm).map Transform.translation =
        some ((ps.map fun p => p.2 • p.1).sum / (ps.map Prod.snd).sum)) ∧
    (ss ≠ [] →
      (update_gltf_animations_target chans xfm).map Transform.scale =
        some ((ss.map fun p => p.2 • p.1).sum / (ss.map Prod.snd).sum)) ∧
    (∀ A B : Vec3, blendTranslation [(A, 1 / 4), (B, 3 / 4)] =
      some ((1 / 4 : ℚ) • A + (3 / 4 : ℚ) • B)) := by
  refine ⟨?_, ?_, ?_⟩
  · intro hps
    rw [update_target_eq chans xfm ps rs ss hacc, blendTranslation_eq ps hps]
    simp
  · intro hss
    rw [update_target_eq chans xfm ps rs ss hacc, blendScale_eq ss hss]
    simp
  · intro A B
    rw [blendTranslation_eq _ (by simp)]
    simp only [List.map_cons, List.map_nil, List.sum_cons, List.sum_nil]
    have hw : (1 / 4 : ℚ) + (3 / 4 + 0) = 1 := by norm_num
    rw [hw]
    have h1 : ∀ v : Vec3, v / (1 : ℚ) = v := fun v => by ext <;> simp
    rw [h1, add_zero]

/-- A position channel with a single keyframe at time `0` and value
`(1,2,3)`, used to instantiate concrete nodes. -/
def cexPosChannel : GltfAnimChannel :=
  ⟨⟨GltfAnimTargetProperty.Position⟩,
    ⟨[0], GltfAnimOutputValues.Translations [⟨1, 2, 3⟩], GltfAnimInterpolation.Linear⟩⟩

/-- A rotation channel with a single identity keyframe at time `0`. -/
noncomputable def cexRotChannel : GltfAnimChannel :=
  ⟨⟨GltfAnimTargetProperty.Rotation⟩,
    ⟨[0], GltfAnimOutputValues.Rotations [1], GltfAnimInterpolation.Linear⟩⟩

/-- A concrete prior transform with nonzero fields. -/
noncomputable def cexXfm : Transform := ⟨⟨9, 9, 9⟩, 1, ⟨8, 8, 8⟩⟩

/-- Witness for C4: a single position channel of weight `1` writes exactly
the weighted mean of its one accumulated sample. -/
theorem claim_C4_weighted_mean_witness :
    (update_gltf_animations_target [(cexPosChannel, 5, 1)] cexXfm).map Transform.translation =
      some ((([((⟨1, 2, 3⟩ : Vec3), (1 : ℚ))]).map fun p => p.2 • p.1).sum /
        (([((⟨1, 2, 3⟩ : Vec3), (1 : ℚ))]).map Prod.snd).sum) := by
  have hacc : accumulate [(cexPosChannel, 5, 1)] = some ([(⟨1, 2, 3⟩, 1)], [], []) := by
    norm_num [accumulate, sample_animation_value, cexPosChannel, interpolate_vec3,
      findKeyframeIndices, rfindIdx]
  exact (claim_C4_weighted_mean _ cexXfm _ _ _ hacc).1 (by simp)

/-- C8: sparse override.  Once accumulation succeeds, any property kind
with no contributing pair keeps the prior transform value, and a
nonempty rotation accumulator overwrites the rotation with the blend
fold. -/
theorem claim_C8_sparse_override (chans : List (GltfAnimChannel × ℚ × ℚ)) (xfm : Transform)
    (ps : List (Vec3 × ℚ)) (rs : List (Quaternion ℝ × ℚ)) (ss : List (Vec3 × ℚ))
    (hacc : accumulate chans = some (ps, rs, ss)) :
    (ps = [] → (update_gltf_animations_target chans xfm).map Transform.translation =
      some xfm.translation) ∧
    (rs = [] → (update_gltf_animations_target chans xfm).map Transform.rotation =
      some xfm.rotation) ∧
    (ss = [] → (update_gltf_animations_target chans xfm).map Transform.scale =
      some xfm.scale) ∧
    (rs ≠ [] → (update_gltf_animations_target chans xfm).map Transform.rotation =
      some (rs.foldl (fun acc p => glamQuatLerp 1 p.1 ((p.2 : ℚ) : ℝ) * acc) 1)) := by
  rw [update_target_eq chans xfm ps rs ss hacc]
  refine ⟨?_, ?_, ?_, ?_⟩ <;> intro h
  · subst h
    simp [blendTranslation]
  · subst h
    simp [blendRotation]
  · subst h
    simp [blendScale]
  · unfold blendRotation
    rw [if_pos (List.length_pos.mpr h)]
    simp

/-- Witness for C8: a node bound only to a rotation channel keeps its
prior translation and gets the blended rotation written. -/
theorem claim_C8_sparse_override_witness :
    (update_gltf_animations_target [(cexRotChannel, 5, 1)] cexXfm).map Transform.translation =
      some cexXfm.translation ∧
    (update_gltf_animations_target [(cexRotChannel, 5, 1)] cexXfm).map Transform.rotation =
      some ([((1 : Quaternion ℝ), (1 : ℚ))].foldl
        (fun acc p => glamQuatLerp 1 p.1 ((p.2 : ℚ) : ℝ) * acc) 1) := by
  have hacc : accumulate [(cexRotChannel, 5, 1)] = some ([], [(1, 1)], []) := by
    norm_num [accumulate, sample_animation_value, cexRotChannel, interpolate_quat,
      findKeyframeIndices, rfindIdx]
  have h := claim_C8_sparse_override _ cexXfm _ _ _ hacc
  exact ⟨h.1 rfl, h.2.2.2 (by simp)⟩

/-- Counterexample to C9 as stated: two position channels with nonzero
weights `1` and `-1` pass the zero-weight filter, their weight sum is
exactly zero, and the blend step still divides and writes the
translation (the prior translation `(9,9,9)` is overwritten), instead of
skipping the write. -/
theorem claim_C9_counterexample :
    ((1 : ℚ) ≠ 0 ∧ (-1 : ℚ) ≠ 0 ∧ (1 : ℚ) + (-1) = 0) ∧
    (update_gltf_animations_target [(cexPosChannel, 5, 1), (cexPosChannel, 5, -1)] cexXfm).map
        Transform.translation ≠ some cexXfm.translation := by
  refine ⟨by norm_num, ?_⟩
  have hacc : accumulate [(cexPosChannel, 5, 1), (cexPosChannel, 5, -1)] =
      some ([(⟨1, 2, 3⟩, 1), (⟨1, 2, 3⟩, -1)], [], []) := by
    norm_num [accumulate, sample_animation_value, cexPosChannel, interpolate_vec3,
      findKeyframeIndices, rfindIdx]
  rw [update_target_eq _ _ _ _ _ hacc, blendTranslation_eq _ (by simp)]
  intro hcon
  norm_num [cexXfm, Vec3.ext_iff] at hcon

/-- C9 (amended): when the accumulated weight sum is exactly zero for a
nonempty position or scale accumulator, the blend step does not skip the
write — it performs the division by zero and produces a value anyway. -/
theorem claim_C9_no_zero_sum_guard (accum : List (Vec3 × ℚ)) (h : accum ≠ [])
    (hw : (accum.map Prod.snd).sum = 0) :
    blendTranslation accum = some ((accum.map fun p => p.2 • p.1).sum / (0 : ℚ)) ∧
    blendScale accum = some ((accum.map fun p => p.2 • p.1).sum / (0 : ℚ)) := by
  rw [blendTranslation_eq accum h, blendScale_eq accum h, hw]
  exact ⟨rfl, rfl⟩

/-- Witness for C9 (amended) with weights `1` and `-1` on the same value. -/
theorem claim_C9_no_zero_sum_guard_witness :
    blendTranslation [(⟨1, 2, 3⟩, 1), (⟨1, 2, 3⟩, -1)] =
      some ((([((⟨1, 2, 3⟩ : Vec3), (1 : ℚ)), (⟨1, 2, 3⟩, -1)]).map fun p => p.2 • p.1).sum /
        (0 : ℚ)) ∧
    blendScale [(⟨1, 2, 3⟩, 1), (⟨1, 2, 3⟩, -1)] =
      some ((([((⟨1, 2, 3⟩ : Vec3), (1 : ℚ)), (⟨1, 2, 3⟩, -1)]).map fun p => p.2 • p.1).sum /
        (0 : ℚ)) :=
  claim_C9_no_zero_sum_guard [(⟨1, 2, 3⟩, 1), (⟨1, 2, 3⟩, -1)] (by simp) (by norm_num)

/-- The quaternion `i` (glam `xyzw` components `(1,0,0,0)`), a 180-degree
rotation about the x axis. -/
noncomputable def cexQI : Quaternion ℝ := quatXYZW 1 0 0 0

/-- The quaternion `k` (glam `xyzw` components `(0,0,1,0)`), a 180-degree
rotation about the z axis. -/
noncomputable def cexQK : Quaternion ℝ := quatXYZW 0 0 1 0

@[simp] theorem cexQI_re : cexQI.re = 0 := rfl

@[simp] theorem cexQI_imI : cexQI.imI = 1 := rfl

@[simp] theorem cexQI_imJ : cexQI.imJ = 0 := rfl

@[simp] theorem cexQI_imK : cexQI.imK = 0 := rfl

@[simp] theorem cexQK_re : cexQK.re = 0 := rfl

@[simp] theorem cexQK_imI : cexQK.imI = 0 := rfl

@[simp] theorem cexQK_imJ : cexQK.imJ = 0 := rfl

@[simp] theorem cexQK_imK : cexQK.imK = 1 := rfl

@[simp] theorem quatXYZW_re (x y z w : ℝ) : (quatXYZW x y z w).re = w := rfl

@[simp] theorem quatXYZW_imI (x y z w : ℝ) : (quatXYZW x y z w).imI = x := rfl

@[simp] theorem quatXYZW_imJ (x y z w : ℝ) : (quatXYZW x y z w).imJ = y := rfl

@[simp] theorem quatXYZW_imK (x y z w : ℝ) : (quatXYZW x y z w).imK = z := rfl

theorem qdot_one_qK : qdot 1 cexQK = 0 := by
  simp [qdot]

/-- glam's lerp from the identity towards `k` lands on the chord point
`(0, 0, s, 1-s)` before renormalizing. -/
theorem glamQuatLerp_one_qK (s : ℝ) :
    glamQuatLerp 1 cexQK s = qnormalize (quatXYZW 0 0 s (1 - s)) := by
  simp only [glamQuatLerp, qdot_one_qK]
  rw [if_pos (le_refl (0 : ℝ)), one_smul]
  congr 1
  ext <;> simp
  ring

theorem qdot_chord_qK (s : ℝ) :
    qdot (quatXYZW 0 0 s (1 - s)) (quatXYZW 0 0 s (1 - s)) = s ^ 2 + (1 - s) ^ 2 := by
  simp [qdot]
  ring

/-- The `imK` component of the renormalized chord point. -/
theorem qnormalize_chord_qK_imK (s : ℝ) :
    (qnormalize (quatXYZW 0 0 s (1 - s))).imK = (Real.sqrt (s ^ 2 + (1 - s) ^ 2))⁻¹ * s := by
  unfold qnormalize
  rw [qdot_chord_qK]
  simp [smul_eq_mul]

/-- The `imK` component of the spec's slerp from the identity towards `k`
at parameter `1/3` is `sin(30°) = 1/2`. -/
theorem slerpSpec_one_qK_third_imK : (slerpSpec 1 cexQK (1 / 3)).imK = 1 / 2 := by
  simp only [slerpSpec, qdot_one_qK]
  rw [if_neg (lt_irrefl (0 : ℝ)), if_neg (lt_irrefl (0 : ℝ)), Real.arccos_zero,
    Real.sin_pi_div_two, if_neg (one_ne_zero)]
  have e1 : (1 - 1 / 3 : ℝ) * (Real.pi / 2) = Real.pi / 3 := by ring
  have e2 : (1 / 3 : ℝ) * (Real.pi / 2) = Real.pi / 6 := by ring
  rw [e1, e2, Real.sin_pi_div_three, Real.sin_pi_div_six]
  simp

/-- The implementation's normalized linear interpolation differs from the
spec's spherical linear interpolation at parameter `1/3` between the
identity and `k`. -/
theorem nlerp_ne_slerp_at_third :
    glamQuatLerp 1 cexQK (1 / 3) ≠ slerpSpec 1 cexQK (1 / 3) := by
  intro hcon
  have hk := congrArg (fun q : Quaternion ℝ => q.imK) hcon
  rw [glamQuatLerp_one_qK] at hk
  simp only [qnormalize_chord_qK_imK, slerpSpec_one_qK_third_imK] at hk
  have harg : ((1 : ℝ) / 3) ^ 2 + (1 - 1 / 3) ^ 2 = 5 / 9 := by norm_num
  rw [harg] at hk
  have hpos : 0 < Real.sqrt (5 / 9) := Real.sqrt_pos.mpr (by norm_num)
  have hinv : (Real.sqrt (5 / 9))⁻¹ = 3 / 2 := by
    field_simp at hk
    field_simp
    linarith
  have hsq : Real.sqrt (5 / 9) = 2 / 3 := by
    rw [← inv_inv (Real.sqrt (5 / 9)), hinv]
    norm_num
  have := Real.sq_sqrt (show (0 : ℝ) ≤ 5 / 9 by norm_num)
  rw [hsq] at this
  norm_num at this

/-- Counterexample to C3 as stated: sampling the rotation track
`times = [0, 3]`, `quats = [1, k]` at `t = 1` in `Linear` mode (so the
lerp parameter is `1/3`) does not produce the shortest-arc slerp of the
two keyframes — the source calls glam's `Quat::lerp`, a renormalized
linear interpolation, whose `k` component is `1/sqrt 5` rather than
slerp's `sin(30°) = 1/2`. -/
theorem claim_C3_counterexample :
    interpolate_quat [1, cexQK] [0, 3] 1 GltfAnimInterpolation.Linear ≠
      some (slerpSpec 1 cexQK (1 / 3)) := by
  have hf : rfindIdx 1 [0, 3] = some 0 := by norm_num [rfindIdx]
  have hmid := interpolate_quat_of_rfind_mid [1, cexQK] hf (by norm_num)
  have e0 : ([1, cexQK] : List (Quaternion ℝ)).getD 0 1 = 1 := rfl
  have e1 : ([1, cexQK] : List (Quaternion ℝ)).getD (0 + 1) 1 = cexQK := rfl
  have hcast : ((((1 : ℚ) - ([0, 3] : List ℚ).getD 0 0) /
      (([0, 3] : List ℚ).getD (0 + 1) 0 - ([0, 3] : List ℚ).getD 0 0) : ℚ) : ℝ) = 1 / 3 := by
    norm_num
  rw [e0, e1, hcast] at hmid
  rw [hmid]
  intro hcon
  exact nlerp_ne_slerp_at_third (Option.some_inj.mp hcon)

/-- C3 (amended): for a rotation track in `Linear` mode with the
rightmost index `i0` satisfying `times[i0] < t` and a valid successor,
the sampled value is glam's normalized linear interpolation with
shortest-arc sign flip — `normalize(q0 + s * (bias * q1 - q0))` with
`bias = 1` when `dot(q0, q1) >= 0` and `-1` otherwise — at parameter
`s = (t - times[i0]) / (times[i1] - times[i0])`, not a spherical linear
interpolation. -/
theorem claim_C3_rotation_nlerp (qs : List (Quaternion ℝ)) (times : List ℚ) (t : ℚ) (i0 : ℕ)
    (hfind : rfindIdx t times = some i0) (hi : i0 + 1 < qs.length) :
    interpolate_quat qs times t GltfAnimInterpolation.Linear =
      some (qnormalize (qs.getD i0 1 +
        (((t - times.getD i0 0) / (times.getD (i0 + 1) 0 - times.getD i0 0) : ℚ) : ℝ) •
          ((if 0 ≤ qdot (qs.getD i0 1) (qs.getD (i0 + 1) 1) then (1 : ℝ) else -1) •
              qs.getD (i0 + 1) 1 - qs.getD i0 1))) := by
  rw [interpolate_quat_of_rfind_mid qs hfind hi]
  rfl

/-- Witness for C3 (amended) on the constant identity rotation track
`times = [0, 2]`, `quats = [1, 1]`, queried at `t = 1`. -/
theorem claim_C3_rotation_nlerp_witness :
    interpolate_quat [1, 1] [0, 2] 1 GltfAnimInterpolation.Linear =
      some (qnormalize ((1 : Quaternion ℝ) +
        ((((1 : ℚ) - ([0, 2] : List ℚ).getD 0 0) /
          (([0, 2] : List ℚ).getD (0 + 1) 0 - ([0, 2] : List ℚ).getD 0 0) : ℚ) : ℝ) •
          ((if 0 ≤ qdot 1 1 then (1 : ℝ) else -1) • (1 : Quaternion ℝ) - 1))) :=
  claim_C3_rotation_nlerp [1, 1] [0, 2] 1 0 (by norm_num [rfindIdx]) (by norm_num)

/-- The rotation blend fold of `update_gltf_animations` (lines 243-245),
factored out: left-to-right from the identity, each step computing
`Quat::lerp(IDENTITY, rot, w) * acc`. -/
noncomputable def rotationBlendFold (l : List (Quaternion ℝ × ℚ)) : Quaternion ℝ :=
  l.foldl (fun acc p => glamQuatLerp 1 p.1 ((p.2 : ℚ) : ℝ) * acc) 1

/-- The rotation blend on a nonempty accumulator is the fold. -/
theorem blendRotation_eq (accum : List (Quaternion ℝ × ℚ)) (h : accum ≠ []) :
    blendRotation accum = some (rotationBlendFold accum) := by
  unfold blendRotation rotationBlendFold
  rw [if_pos (List.length_pos.mpr h)]

theorem glamQuatLerp_one_qI : glamQuatLerp 1 cexQI ((1 : ℚ) : ℝ) = cexQI := by
  rw [Rat.cast_one]
  exact glamQuatLerp_at_one 1 cexQI (by norm_num [qdot]) (by norm_num [qdot])

theorem glamQuatLerp_half_qK :
    glamQuatLerp 1 cexQK ((1 / 2 : ℚ) : ℝ) =
      (Real.sqrt (1 / 2))⁻¹ • quatXYZW 0 0 (1 / 2) (1 / 2) := by
  have hc : ((1 / 2 : ℚ) : ℝ) = 1 / 2 := by norm_num
  rw [hc, glamQuatLerp_one_qK]
  have he : (1 : ℝ) - 1 / 2 = 1 / 2 := by norm_num
  rw [he]
  unfold qnormalize
  rw [show qdot (quatXYZW 0 0 (1 / 2 : ℝ) (1 / 2)) (quatXYZW 0 0 (1 / 2) (1 / 2)) = 1 / 2 by
    norm_num [qdot]]

/-- The rotation blend fold is order dependent: swapping two channels
with weights `1` and `1/2` on the rotations `i` and `k` changes the
result (`k·i = j` but `i·k = -j`). -/
theorem rotation_fold_order_dependent :
    rotationBlendFold [(cexQI, 1), (cexQK, 1 / 2)] ≠
      rotationBlendFold [(cexQK, 1 / 2), (cexQI, 1)] := by
  have hA : rotationBlendFold [(cexQI, 1), (cexQK, 1 / 2)] =
      (Real.sqrt (1 / 2))⁻¹ • (quatXYZW 0 0 (1 / 2) (1 / 2) * cexQI) := by
    simp only [rotationBlendFold, List.foldl_cons, List.foldl_nil]
    rw [glamQuatLerp_one_qI, mul_one, glamQuatLerp_half_qK, smul_mul_assoc]
  have hB : rotationBlendFold [(cexQK, 1 / 2), (cexQI, 1)] =
      (Real.sqrt (1 / 2))⁻¹ • (cexQI * quatXYZW 0 0 (1 / 2) (1 / 2)) := by
    simp only [rotationBlendFold, List.foldl_cons, List.foldl_nil]
    rw [glamQuatLerp_half_qK, mul_one, glamQuatLerp_one_qI, mul_smul_comm]
  intro hcon
  rw [hA, hB] at hcon
  have hj := congrArg (fun q : Quaternion ℝ => q.imJ) hcon
  simp only [Quaternion.smul_imJ, Quaternion.mul_imJ, smul_eq_mul] at hj
  simp at hj
  have hpos : 0 < Real.sqrt 2 := Real.sqrt_pos.mpr (by norm_num)
  linarith [hj, hpos]

/-- Counterexample to C5 as stated: a single accumulated rotation pair
`(k, 1/3)` blends to `Quat::lerp(IDENTITY, k, 1/3) * IDENTITY`, which is
not the fold step `slerp(IDENTITY, k, 1/3) * IDENTITY` the claim
describes. -/
theorem claim_C5_counterexample :
    blendRotation [(cexQK, 1 / 3)] ≠
      some ([((cexQK : Quaternion ℝ), (1 / 3 : ℚ))].foldl
        (fun acc p => slerpSpec 1 p.1 ((p.2 : ℚ) : ℝ) * acc) 1) := by
  rw [blendRotation_eq _ (by simp)]
  intro hcon
  rw [Option.some_inj] at hcon
  simp only [rotationBlendFold, List.foldl_cons, List.foldl_nil, mul_one] at hcon
  have hc : ((1 / 3 : ℚ) : ℝ) = 1 / 3 := by norm_num
  rw [hc] at hcon
  exact nlerp_ne_slerp_at_third hcon

/-- C5 (amended): for a node whose accumulation produced a nonempty list
of rotation pairs, the written rotation is the left-to-right fold from
the identity with steps `Quat::lerp(IDENTITY, rot_i, w_i) * acc` —
glam's normalized linear interpolation, not slerp — and this fold is
order dependent: swapping two channels with nonzero weights `1` and
`1/2` on the rotations `i` and `k` changes the result. -/
theorem claim_C5_rotation_blend_fold (chans : List (GltfAnimChannel × ℚ × ℚ)) (xfm : Transform)
    (ps : List (Vec3 × ℚ)) (rs : List (Quaternion ℝ × ℚ)) (ss : List (Vec3 × ℚ))
    (hacc : accumulate chans = some (ps, rs, ss)) (hrs : rs ≠ []) :
    (update_gltf_animations_target chans xfm).map Transform.rotation =
      some (rotationBlendFold rs) ∧
    rotationBlendFold [(cexQI, 1), (cexQK, 1 / 2)] ≠
      rotationBlendFold [(cexQK, 1 / 2), (cexQI, 1)] := by
  constructor
  · rw [update_target_eq chans xfm ps rs ss hacc, blendRotation_eq rs hrs]
    simp
  · exact rotation_fold_order_dependent

/-- Witness for C5 (amended): a node bound to a single rotation channel
of weight `1` gets the fold over its one accumulated pair written. -/
theorem claim_C5_rotation_blend_fold_witness :
    (update_gltf_animations_target [(cexRotChannel, 5, 1)] cexXfm).map Transform.rotation =
      some (rotationBlendFold [(1, 1)]) ∧
    rotationBlendFold [(cexQI, 1), (cexQK, 1 / 2)] ≠
      rotationBlendFold [(cexQK, 1 / 2), (cexQI, 1)] := by
  have hacc : accumulate [(cexRotChannel, 5, 1)] = some ([], [(1, 1)], []) := by
    norm_num [accumulate, sample_animation_value, cexRotChannel, interpolate_quat,
      findKeyframeIndices, rfindIdx]
  exact claim_C5_rotation_blend_fold _ cexXfm _ _ _ hacc (by simp)
